import Mathlib

/-!
Verification of PureVision, a chroma-key background-removal core.

Shallow embedding of `src/utils/imageProcessing.ts` (color distance,
background detection, transparency compositing) and of the mask-paint
pointer handler `handleMouseMove` from the application component.

Conventions of the embedding:
* 8-bit channel values read from an RGBA buffer are modelled as `ℤ`
  (JavaScript reads them from a `Uint8ClampedArray` as exact integers).
* JavaScript `number` arithmetic (`Math.sqrt`, division, the alpha
  falloff) is idealised as exact real arithmetic over `ℝ`; the pointer /
  scaling arithmetic of the paint handler only uses field operations and
  comparisons, so it is modelled computably over `ℚ`.
* The flat RGBA byte stream walked 4 bytes at a time by the compositing
  loop is modelled as a `List Pixel`, one entry per 4-byte group.
* The alpha value stored by `data[i + 3] = …` is modelled as the assigned
  value itself (already clamped to `[0, 255]` by the code); the further
  byte quantisation performed by `Uint8ClampedArray` is not modelled, the
  contract being stated on the computed alpha.
-/

namespace PureVision

/-- An RGB triple, as in `src/types` `RGBColor`: three channels,
each an 8-bit value in a buffer (modelled as `ℤ`). -/
structure RGBColor where
  r : ℤ
  g : ℤ
  b : ℤ
deriving DecidableEq, Repr

/-- One 4-byte RGBA group of the flat `data` buffer.  `r`, `g`, `b` are
the bytes at offsets `i`, `i+1`, `i+2`; `a` is the byte at offset `i+3`,
typed `ℝ` because the compositor assigns it a real-valued expression. -/
structure Pixel where
  r : ℤ
  g : ℤ
  b : ℤ
  a : ℝ

/-- The RGB part of a pixel, as built by the compositing loop
(`currentPixel = { r: data[i], g: data[i+1], b: data[i+2] }`). -/
def Pixel.rgb (p : Pixel) : RGBColor := ⟨p.r, p.g, p.b⟩

/-- The integer radicand of the Euclidean distance:
`(c1.r-c2.r)^2 + (c1.g-c2.g)^2 + (c1.b-c2.b)^2`. -/
def colorDist2 (c1 c2 : RGBColor) : ℤ :=
  (c1.r - c2.r) ^ 2 + (c1.g - c2.g) ^ 2 + (c1.b - c2.b) ^ 2

/-- Function `getColorDistance` from `src/utils/imageProcessing.ts`:
`Math.sqrt((c1.r-c2.r)^2 + (c1.g-c2.g)^2 + (c1.b-c2.b)^2)`. -/
noncomputable def getColorDistance (c1 c2 : RGBColor) : ℝ :=
  Real.sqrt (((c1.r : ℝ) - (c2.r : ℝ)) ^ 2 +
    ((c1.g : ℝ) - (c2.g : ℝ)) ^ 2 +
    ((c1.b : ℝ) - (c2.b : ℝ)) ^ 2)

theorem getColorDistance_eq_sqrt_dist2 (c1 c2 : RGBColor) :
    getColorDistance c1 c2 = Real.sqrt ((colorDist2 c1 c2 : ℤ) : ℝ) := by
  unfold getColorDistance colorDist2
  push_cast
  ring_nf

/-- The effective falloff divisor
`const smoothRange = Math.max(smoothness, 1)` (computed once, before the
pixel loop, to avoid division by zero). -/
noncomputable def smoothRangeOf (smoothness : ℝ) : ℝ :=
  max smoothness 1

/-- The alpha value the compositing loop stores at `data[i + 3]`, as a
function of the pixel's distance `d` from the target color:
* `d ≤ tolerance` → `0`;
* `d ≤ tolerance + smoothRange` →
  `Math.min(255, Math.max(0, ((d - tolerance) / smoothRange) * 255))`;
* otherwise → `255`. -/
noncomputable def alphaOfDist (tolerance smoothness d : ℝ) : ℝ :=
  if d ≤ tolerance then 0
  else if d ≤ tolerance + smoothRangeOf smoothness then
    min 255 (max 0 ((d - tolerance) / smoothRangeOf smoothness * 255))
  else 255

/-- The body of the compositing loop for one 4-byte group: compute the
distance of `currentPixel` to `targetColor` and overwrite the alpha byte;
the `r`, `g`, `b` bytes are not written. -/
noncomputable def processPixel (targetColor : RGBColor) (tolerance smoothness : ℝ)
    (p : Pixel) : Pixel :=
  { p with a := alphaOfDist tolerance smoothness (getColorDistance p.rgb targetColor) }

/-- Function `makeTransparent` from `src/utils/imageProcessing.ts`, at the level
of the pixel buffer: the loop `for (i = 0; i < data.length; i += 4)`
applies the per-pixel classification to every 4-byte group.  `data` is
the buffer obtained from `ctx.getImageData`; the PNG re-encoding of the
mutated buffer is outside the model.  `smoothness` has the source's
default value `20`. -/
noncomputable def makeTransparent (data : List Pixel) (targetColor : RGBColor)
    (tolerance : ℝ) (smoothness : ℝ := 20) : List Pixel :=
  data.map (processPixel targetColor tolerance smoothness)

/-- Function `detectBackgroundColor` from `src/utils/imageProcessing.ts`.
`img x y` models `ctx.getImageData(x, y, 1, 1).data` (the 4-byte pixel at
canvas coordinate `(x, y)`); `s[0]`, `s[1]`, `s[2]` are its `r`, `g`, `b`
fields.  Five fixed samples — the four corners and the top midpoint
`(Math.floor(width / 2), 0)` — are summed per channel and averaged with
`Math.round(sum / samples.length)` (round half towards `+∞`, which is
`round` on `ℚ`). -/
def detectBackgroundColor (img : ℤ → ℤ → Pixel) (width height : ℤ) : RGBColor :=
  let samples : List Pixel :=
    [img 0 0,
     img (width - 1) 0,
     img 0 (height - 1),
     img (width - 1) (height - 1),
     img (Int.fdiv width 2) 0]
  let r : ℤ := (samples.map Pixel.r).sum
  let g : ℤ := (samples.map Pixel.g).sum
  let b : ℤ := (samples.map Pixel.b).sum
  { r := round ((r : ℚ) / (samples.length : ℚ)),
    g := round ((g : ℚ) / (samples.length : ℚ)),
    b := round ((b : ℚ) / (samples.length : ℚ)) }

/-- The on-screen rectangle of the displayed image,
`displayImgRef.current.getBoundingClientRect()` in `handleMouseMove`. -/
structure DisplayRect where
  left : ℚ
  top : ℚ
  width : ℚ
  height : ℚ

/-- The paint action `handleMouseMove` performs when the pointer is inside
the displayed image: `ctx.arc(x, y, radius, 0, 2π)` filled with the
current target color. -/
structure PaintAction where
  x : ℚ
  y : ℚ
  radius : ℚ
  color : RGBColor

/-- The drawing branch of `handleMouseMove` (App component), while
`isDrawing` holds.  `canvasWidth`/`canvasHeight` are the mask canvas's
raster dimensions, `imgRect` the displayed image's bounding rectangle,
`(clientX, clientY)` the pointer position.  The handler computes
`relX = clientX - imgRect.left`, `relY = clientY - imgRect.top`; only if
`relX ∈ [0, imgRect.width]` and `relY ∈ [0, imgRect.height]` does it
paint a disc at `(relX * scaleX, relY * scaleY)` with radius
`brushSize * scaleX / 2` (where `scaleX = canvasWidth / imgRect.width`,
`scaleY = canvasHeight / imgRect.height`); otherwise nothing happens. -/
def handleMouseMove (canvasWidth canvasHeight : ℚ) (imgRect : DisplayRect)
    (targetColor : RGBColor) (brushSize : ℚ) (clientX clientY : ℚ) :
    Option PaintAction :=
  let relX := clientX - imgRect.left
  let relY := clientY - imgRect.top
  if 0 ≤ relX ∧ relX ≤ imgRect.width ∧ 0 ≤ relY ∧ relY ≤ imgRect.height then
    let scaleX := canvasWidth / imgRect.width
    let scaleY := canvasHeight / imgRect.height
    some { x := relX * scaleX,
           y := relY * scaleY,
           radius := brushSize * scaleX / 2,
           color := targetColor }
  else
    none

/-- The mask overlay buffer: for each raster coordinate, either no
contribution or a painted color (painted pixels are fully opaque). -/
def MaskBuffer : Type := ℤ → ℤ → Option RGBColor

/-- Idealised `ctx.arc(x, y, radius, 0, 2π); ctx.fill()` on the mask
canvas: every raster pixel within `radius` of the center becomes the
fill color; all other pixels keep their previous state. -/
def fillDisc (color : RGBColor) (cx cy radius : ℚ) (mask : MaskBuffer) :
    MaskBuffer :=
  fun i j =>
    if ((i : ℚ) - cx) ^ 2 + ((j : ℚ) - cy) ^ 2 ≤ radius ^ 2 then some color
    else mask i j

/-- One pointer-move event in drawing mode, acting on the mask overlay:
if `handleMouseMove` produces a paint action the disc is filled into the
mask and `processImage()` is invoked (the `Bool` records whether
recomposition was triggered); otherwise the mask is untouched and no
recomposition happens. -/
def paintStep (canvasWidth canvasHeight : ℚ) (imgRect : DisplayRect)
    (targetColor : RGBColor) (brushSize clientX clientY : ℚ)
    (mask : MaskBuffer) : MaskBuffer × Bool :=
  match handleMouseMove canvasWidth canvasHeight imgRect targetColor
      brushSize clientX clientY with
  | some act => (fillDisc act.color act.x act.y act.radius mask, true)
  | none => (mask, false)

/- Helper lemmas -/

theorem getColorDistance_eq_of_sq (c1 c2 : RGBColor) (n : ℤ)
    (h : colorDist2 c1 c2 = n ^ 2) (hn : 0 ≤ n) :
    getColorDistance c1 c2 = (n : ℝ) := by
  rw [getColorDistance_eq_sqrt_dist2, h]
  push_cast
  exact Real.sqrt_sq (by exact_mod_cast hn)

theorem smoothRangeOf_pos (smoothness : ℝ) : 0 < smoothRangeOf smoothness :=
  lt_of_lt_of_le one_pos (le_max_right _ _)

theorem smoothRangeOf_eq_of_one_le (smoothness : ℝ) (hs : 1 ≤ smoothness) :
    smoothRangeOf smoothness = smoothness :=
  max_eq_left hs

theorem alphaOfDist_nonneg (tolerance smoothness d : ℝ) :
    0 ≤ alphaOfDist tolerance smoothness d := by
  unfold alphaOfDist
  split
  · exact le_refl 0
  split
  · exact le_min (by norm_num) (le_max_left 0 _)
  · norm_num

theorem alphaOfDist_le (tolerance smoothness d : ℝ) :
    alphaOfDist tolerance smoothness d ≤ 255 := by
  unfold alphaOfDist
  split
  · norm_num
  split
  · exact min_le_left _ _
  · exact le_refl 255

theorem alphaOfDist_mono (tolerance smoothness : ℝ) {d1 d2 : ℝ} (h : d1 ≤ d2) :
    alphaOfDist tolerance smoothness d1 ≤ alphaOfDist tolerance smoothness d2 := by
  have hsr : 0 < smoothRangeOf smoothness := smoothRangeOf_pos smoothness
  unfold alphaOfDist
  by_cases h1 : d1 ≤ tolerance
  · rw [if_pos h1]
    split
    · exact le_refl 0
    split
    · exact le_min (by norm_num) (le_max_left 0 _)
    · norm_num
  · rw [if_neg h1, if_neg (fun h2 => h1 (le_trans h h2))]
    by_cases h1b : d1 ≤ tolerance + smoothRangeOf smoothness
    · rw [if_pos h1b]
      by_cases h2b : d2 ≤ tolerance + smoothRangeOf smoothness
      · rw [if_pos h2b]
        have : (d1 - tolerance) / smoothRangeOf smoothness * 255 ≤
            (d2 - tolerance) / smoothRangeOf smoothness * 255 := by
          have := sub_le_sub_right h tolerance
          gcongr
        exact min_le_min le_rfl (max_le_max le_rfl this)
      · rw [if_neg h2b]
        exact min_le_left _ _
    · rw [if_neg h1b, if_neg (fun h2b => h1b (le_trans h h2b))]

theorem processPixel_a (targetColor : RGBColor) (tolerance smoothness : ℝ) (p : Pixel) :
    (processPixel targetColor tolerance smoothness p).a =
      alphaOfDist tolerance smoothness (getColorDistance p.rgb targetColor) := rfl

/- Claim theorems -/

/-- C1: for every pixel of the input buffer whose Euclidean RGB distance
`d` to `targetColor` satisfies `d ≤ tolerance`, `makeTransparent` sets
that pixel's output alpha to `0` and leaves its `r`, `g`, `b` channels
equal to their input values. -/
theorem makeTransparent_within_tolerance (data : List Pixel) (targetColor : RGBColor)
    (tolerance smoothness : ℝ) (i : ℕ) (p : Pixel)
    (hp : data[i]? = some p)
    (hd : getColorDistance p.rgb targetColor ≤ tolerance) :
    (makeTransparent data targetColor tolerance smoothness)[i]? =
      some { r := p.r, g := p.g, b := p.b, a := 0 } := by
  unfold makeTransparent
  rw [List.getElem?_map, hp, Option.map_some']
  unfold processPixel alphaOfDist
  rw [if_pos hd]

/-- Witness for C1: a single-pixel buffer whose pixel equals the target
color `(200,200,200)` (distance `0 ≤ 20`) comes out with alpha `0` and
unchanged RGB. -/
theorem makeTransparent_within_tolerance_witness :
    (makeTransparent [⟨200, 200, 200, (255 : ℝ)⟩] ⟨200, 200, 200⟩ 20 30)[0]? =
      some { r := 200, g := 200, b := 200, a := 0 } := by
  have hd : getColorDistance (Pixel.rgb ⟨200, 200, 200, (255 : ℝ)⟩) ⟨200, 200, 200⟩ ≤ 20 := by
    rw [getColorDistance_eq_of_sq _ _ 0 (by decide) (le_refl 0)]
    norm_num
  exact makeTransparent_within_tolerance _ _ _ _ 0 _ rfl hd

/-- C2: for every pixel with `tolerance < d ≤ tolerance + smoothness`
(smoothness being the effective, `≥ 1`, falloff width), `makeTransparent`
sets the output alpha to `clamp(((d - tolerance) / smoothness) * 255, 0, 255)`;
in particular at `d = tolerance + smoothness` the output alpha is
exactly `255`. -/
theorem makeTransparent_falloff_band (data : List Pixel) (targetColor : RGBColor)
    (tolerance smoothness : ℝ) (i : ℕ) (p : Pixel)
    (hs : 1 ≤ smoothness)
    (hp : data[i]? = some p)
    (h1 : tolerance < getColorDistance p.rgb targetColor)
    (h2 : getColorDistance p.rgb targetColor ≤ tolerance + smoothness) :
    (makeTransparent data targetColor tolerance smoothness)[i]? =
        some { r := p.r, g := p.g, b := p.b,
               a := min 255 (max 0
                 ((getColorDistance p.rgb targetColor - tolerance) / smoothness * 255)) } ∧
      (getColorDistance p.rgb targetColor = tolerance + smoothness →
        (makeTransparent data targetColor tolerance smoothness)[i]? =
          some { r := p.r, g := p.g, b := p.b, a := 255 }) := by
  have hsr := smoothRangeOf_eq_of_one_le smoothness hs
  have hmain : (makeTransparent data targetColor tolerance smoothness)[i]? =
      some { r := p.r, g := p.g, b := p.b,
             a := min 255 (max 0
               ((getColorDistance p.rgb targetColor - tolerance) / smoothness * 255)) } := by
    unfold makeTransparent
    rw [List.getElem?_map, hp, Option.map_some']
    unfold processPixel alphaOfDist
    rw [if_neg (not_le.mpr h1), if_pos (by rw [hsr]; exact h2), hsr]
  refine ⟨hmain, fun heq => ?_⟩
  rw [hmain, heq]
  have hs0 : smoothness ≠ 0 := by linarith
  rw [add_sub_cancel_left, div_self hs0]
  norm_num

/-- Witness for C2: the pixel `(3,4,0)` against target `(0,0,0)` has
distance `5`; with `tolerance = 4`, `smoothness = 1` it sits exactly at
`d = tolerance + smoothness`, so both the falloff formula and the
opaque-boundary consequence apply. -/
theorem makeTransparent_falloff_band_witness :
    (makeTransparent [⟨3, 4, 0, (7 : ℝ)⟩] ⟨0, 0, 0⟩ 4 1)[0]? =
        some { r := 3, g := 4, b := 0,
               a := min 255 (max 0
                 ((getColorDistance (Pixel.rgb ⟨3, 4, 0, (7 : ℝ)⟩) ⟨0, 0, 0⟩ - 4) / 1 * 255)) } ∧
      (getColorDistance (Pixel.rgb ⟨3, 4, 0, (7 : ℝ)⟩) ⟨0, 0, 0⟩ = 4 + 1 →
        (makeTransparent [⟨3, 4, 0, (7 : ℝ)⟩] ⟨0, 0, 0⟩ 4 1)[0]? =
          some { r := 3, g := 4, b := 0, a := 255 }) := by
  have hd : getColorDistance (Pixel.rgb ⟨3, 4, 0, (7 : ℝ)⟩) ⟨0, 0, 0⟩ = 5 := by
    exact_mod_cast getColorDistance_eq_of_sq _ _ 5 (by decide) (by decide)
  exact makeTransparent_falloff_band [⟨3, 4, 0, (7 : ℝ)⟩] ⟨0, 0, 0⟩ 4 1 0 ⟨3, 4, 0, (7 : ℝ)⟩
    (by norm_num) rfl (by rw [hd]; norm_num) (by rw [hd]; norm_num)

/-- C3: for every pixel with `d > tolerance + smoothness` (smoothness
effective, `≥ 1`), `makeTransparent` sets the output alpha to exactly
`255`, discarding whatever alpha the pixel carried before. -/
theorem makeTransparent_beyond_band (data : List Pixel) (targetColor : RGBColor)
    (tolerance smoothness : ℝ) (i : ℕ) (p : Pixel)
    (hs : 1 ≤ smoothness)
    (hp : data[i]? = some p)
    (hd : tolerance + smoothness < getColorDistance p.rgb targetColor) :
    (makeTransparent data targetColor tolerance smoothness)[i]? =
      some { r := p.r, g := p.g, b := p.b, a := 255 } := by
  have hsr := smoothRangeOf_eq_of_one_le smoothness hs
  have h1 : ¬ getColorDistance p.rgb targetColor ≤ tolerance := by
    push_neg
    linarith
  have h2 : ¬ getColorDistance p.rgb targetColor ≤ tolerance + smoothRangeOf smoothness := by
    rw [hsr]
    push_neg
    exact hd
  unfold makeTransparent
  rw [List.getElem?_map, hp, Option.map_some']
  unfold processPixel alphaOfDist
  rw [if_neg h1, if_neg h2]

/-- Witness for C3: the pixel `(3,4,0)` with pre-existing alpha `123`
against target `(0,0,0)` is at distance `5 > 1 + 1`; its output alpha is
forced to `255` (the old alpha is discarded). -/
theorem makeTransparent_beyond_band_witness :
    (makeTransparent [⟨3, 4, 0, (123 : ℝ)⟩] ⟨0, 0, 0⟩ 1 1)[0]? =
      some { r := 3, g := 4, b := 0, a := 255 } := by
  have hd : getColorDistance (Pixel.rgb ⟨3, 4, 0, (123 : ℝ)⟩) ⟨0, 0, 0⟩ = 5 := by
    exact_mod_cast getColorDistance_eq_of_sq _ _ 5 (by decide) (by decide)
  exact makeTransparent_beyond_band [⟨3, 4, 0, (123 : ℝ)⟩] ⟨0, 0, 0⟩ 1 1 0 ⟨3, 4, 0, (123 : ℝ)⟩
    (by norm_num) rfl (by rw [hd]; norm_num)

/-- C4: the per-pixel classification is monotonically non-decreasing in
the distance: for two pixels processed with the same target color,
tolerance and smoothness, the one at the smaller distance receives the
smaller (or equal) output alpha, across all three branches. -/
theorem processPixel_alpha_mono (targetColor : RGBColor) (tolerance smoothness : ℝ)
    (p1 p2 : Pixel)
    (h : getColorDistance p1.rgb targetColor ≤ getColorDistance p2.rgb targetColor) :
    (processPixel targetColor tolerance smoothness p1).a ≤
      (processPixel targetColor tolerance smoothness p2).a := by
  rw [processPixel_a, processPixel_a]
  exact alphaOfDist_mono tolerance smoothness h

/-- Witness for C4: with target `(0,0,0)`, the pixel `(0,0,0)` (distance
`0`) gets an alpha no larger than the pixel `(3,4,0)` (distance `5`). -/
theorem processPixel_alpha_mono_witness :
    (processPixel ⟨0, 0, 0⟩ 20 30 ⟨0, 0, 0, (0 : ℝ)⟩).a ≤
      (processPixel ⟨0, 0, 0⟩ 20 30 ⟨3, 4, 0, (0 : ℝ)⟩).a := by
  have h1 : getColorDistance (Pixel.rgb ⟨0, 0, 0, (0 : ℝ)⟩) ⟨0, 0, 0⟩ = 0 := by
    exact_mod_cast getColorDistance_eq_of_sq _ _ 0 (by decide) (by decide)
  have h2 : getColorDistance (Pixel.rgb ⟨3, 4, 0, (0 : ℝ)⟩) ⟨0, 0, 0⟩ = 5 := by
    exact_mod_cast getColorDistance_eq_of_sq _ _ 5 (by decide) (by decide)
  exact processPixel_alpha_mono ⟨0, 0, 0⟩ 20 30 ⟨0, 0, 0, (0 : ℝ)⟩ ⟨3, 4, 0, (0 : ℝ)⟩
    (by rw [h1, h2]; norm_num)

/-- C5: `makeTransparent` modifies only the alpha byte of each pixel —
at every buffer index the output `r`, `g`, `b` bytes equal the input
ones, for all values of the target color, tolerance and smoothness. -/
theorem makeTransparent_preserves_rgb (data : List Pixel) (targetColor : RGBColor)
    (tolerance smoothness : ℝ) (i : ℕ) :
    ((makeTransparent data targetColor tolerance smoothness)[i]?).map Pixel.r =
        (data[i]?).map Pixel.r ∧
      ((makeTransparent data targetColor tolerance smoothness)[i]?).map Pixel.g =
        (data[i]?).map Pixel.g ∧
      ((makeTransparent data targetColor tolerance smoothness)[i]?).map Pixel.b =
        (data[i]?).map Pixel.b := by
  unfold makeTransparent
  rw [List.getElem?_map]
  cases data[i]? with
  | none => simp
  | some p => simp [processPixel]

/-- C6: a call with `smoothness = 0` behaves exactly as one with
`smoothness = 1` (the divisor is `max(smoothness, 1)`), and the effective
divisor is at least `1` — hence never zero — for every smoothness. -/
theorem makeTransparent_smoothness_zero :
    (∀ (data : List Pixel) (targetColor : RGBColor) (tolerance : ℝ),
        makeTransparent data targetColor tolerance 0 =
          makeTransparent data targetColor tolerance 1) ∧
      ∀ smoothness : ℝ, 1 ≤ smoothRangeOf smoothness := by
  constructor
  · intro data targetColor tolerance
    unfold makeTransparent
    have hsr : smoothRangeOf 0 = smoothRangeOf 1 := by
      unfold smoothRangeOf
      norm_num
    apply List.map_congr_left
    intro p _
    unfold processPixel alphaOfDist
    rw [hsr]
  · intro smoothness
    exact le_max_right _ _

/-- C10: invoking `makeTransparent` without a smoothness argument is the
same as passing `smoothness = 20`: the parameter's implicit default at
the interface is `20`. -/
theorem makeTransparent_default_smoothness (data : List Pixel) (targetColor : RGBColor)
    (tolerance : ℝ) :
    makeTransparent data targetColor tolerance =
      data.map (processPixel targetColor tolerance 20) := rfl

theorem detectBackgroundColor_eval (img : ℤ → ℤ → Pixel) (width height : ℤ) :
    detectBackgroundColor img width height =
      { r := round ((((img 0 0).r + ((img (width - 1) 0).r + ((img 0 (height - 1)).r +
            ((img (width - 1) (height - 1)).r + (img (Int.fdiv width 2) 0).r) : ℤ)) : ℤ) : ℚ) / 5),
        g := round ((((img 0 0).g + ((img (width - 1) 0).g + ((img 0 (height - 1)).g +
            ((img (width - 1) (height - 1)).g + (img (Int.fdiv width 2) 0).g) : ℤ)) : ℤ) : ℚ) / 5),
        b := round ((((img 0 0).b + ((img (width - 1) 0).b + ((img 0 (height - 1)).b +
            ((img (width - 1) (height - 1)).b + (img (Int.fdiv width 2) 0).b) : ℤ)) : ℤ) : ℚ) / 5) } := by
  unfold detectBackgroundColor
  simp only [List.map_cons, List.map_nil, List.sum_cons, List.sum_nil, List.length_cons,
    List.length_nil, add_zero]
  norm_num

/-- C7: `detectBackgroundColor` depends only on the five fixed sample
points `(0,0)`, `(width-1,0)`, `(0,height-1)`, `(width-1,height-1)` and
`(floor(width/2),0)`, ignoring alpha, and returns their per-channel
rounded average; consequently on any image of one uniform color — the
degenerate `1×1` image included — it returns that color exactly. -/
theorem detectBackgroundColor_spec :
    (∀ (img img2 : ℤ → ℤ → Pixel) (width height : ℤ),
        (∀ x y,
          (x, y) ∈ [((0 : ℤ), (0 : ℤ)), (width - 1, 0), (0, height - 1),
              (width - 1, height - 1), (Int.fdiv width 2, 0)] →
          (img x y).r = (img2 x y).r ∧ (img x y).g = (img2 x y).g ∧
            (img x y).b = (img2 x y).b) →
        detectBackgroundColor img width height =
          detectBackgroundColor img2 width height) ∧
      ∀ (img : ℤ → ℤ → Pixel) (width height : ℤ) (c : RGBColor),
        (∀ x y, (img x y).r = c.r ∧ (img x y).g = c.g ∧ (img x y).b = c.b) →
        detectBackgroundColor img width height = c := by
  constructor
  · intro img img2 w h hagree
    have h00 := hagree 0 0 (by simp)
    have h10 := hagree (w - 1) 0 (by simp)
    have h01 := hagree 0 (h - 1) (by simp)
    have h11 := hagree (w - 1) (h - 1) (by simp)
    have hm := hagree (Int.fdiv w 2) 0 (by simp)
    rw [detectBackgroundColor_eval, detectBackgroundColor_eval,
      h00.1, h10.1, h01.1, h11.1, hm.1, h00.2.1, h10.2.1, h01.2.1, h11.2.1, hm.2.1,
      h00.2.2, h10.2.2, h01.2.2, h11.2.2, hm.2.2]
  · intro img w h c hc
    have h00 := hc 0 0
    have h10 := hc (w - 1) 0
    have h01 := hc 0 (h - 1)
    have h11 := hc (w - 1) (h - 1)
    have hm := hc (Int.fdiv w 2) 0
    rw [detectBackgroundColor_eval,
      h00.1, h10.1, h01.1, h11.1, hm.1, h00.2.1, h10.2.1, h01.2.1, h11.2.1, hm.2.1,
      h00.2.2, h10.2.2, h01.2.2, h11.2.2, hm.2.2]
    have hround : ∀ k : ℤ, round (((k + (k + (k + (k + k))) : ℤ) : ℚ) / 5) = k := by
      intro k
      push_cast
      rw [show ((k : ℚ) + (k + (k + (k + k)))) / 5 = (k : ℚ) by ring]
      exact round_intCast k
    rw [hround c.r, hround c.g, hround c.b]

/-- Witness for C7: a `1×1` image uniformly colored `(10,20,30)` — all
five samples coincide at `(0,0)` — yields exactly `(10,20,30)`. -/
theorem detectBackgroundColor_spec_witness :
    detectBackgroundColor (fun _ _ => ⟨10, 20, 30, (255 : ℝ)⟩) 1 1 = ⟨10, 20, 30⟩ :=
  detectBackgroundColor_spec.2 (fun _ _ => ⟨10, 20, 30, (255 : ℝ)⟩) 1 1 ⟨10, 20, 30⟩
    (fun _ _ => ⟨rfl, rfl, rfl⟩)

/-- C8: a pointer event whose image-relative position falls outside
`[0, displayWidth] × [0, displayHeight]` mutates nothing: the mask
overlay buffer is returned unchanged and no recomposition is
triggered — a silent no-op, not a clamp. -/
theorem paintStep_out_of_bounds (canvasWidth canvasHeight : ℚ) (imgRect : DisplayRect)
    (targetColor : RGBColor) (brushSize clientX clientY : ℚ) (mask : MaskBuffer)
    (h : clientX - imgRect.left < 0 ∨ imgRect.width < clientX - imgRect.left ∨
        clientY - imgRect.top < 0 ∨ imgRect.height < clientY - imgRect.top) :
    paintStep canvasWidth canvasHeight imgRect targetColor brushSize clientX clientY mask =
      (mask, false) := by
  have hnone : handleMouseMove canvasWidth canvasHeight imgRect targetColor brushSize
      clientX clientY = none := by
    unfold handleMouseMove
    rw [if_neg]
    rintro ⟨h1, h2, h3, h4⟩
    rcases h with h | h | h | h <;> linarith
  unfold paintStep
  rw [hnone]

/-- Witness for C8: a click at `relX = -5` (display rectangle of width
`100` at the origin) leaves the empty mask untouched and triggers no
recomposition. -/
theorem paintStep_out_of_bounds_witness :
    paintStep 200 200 ⟨0, 0, 100, 100⟩ ⟨255, 255, 255⟩ 20 (-5) 50 (fun _ _ => none) =
      (fun _ _ => none, false) :=
  paintStep_out_of_bounds 200 200 ⟨0, 0, 100, 100⟩ ⟨255, 255, 255⟩ 20 (-5) 50
    (fun _ _ => none) (Or.inl (by norm_num))

/-- C9: an in-bounds paint event maps display coordinates to raster
coordinates by `x = relX * (rasterWidth / displayWidth)`,
`y = relY * (rasterHeight / displayHeight)` and paints a disc of the
current target color there with radius `brushSize * scaleX / 2`; in
particular a click at display-local `(50,50)` on a `100×100` display of
a `200×200` raster with brush size `20` paints at center `(100,100)`
with radius `20`. -/
theorem handleMouseMove_in_bounds :
    (∀ (canvasWidth canvasHeight : ℚ) (imgRect : DisplayRect) (targetColor : RGBColor)
        (brushSize clientX clientY : ℚ),
      0 ≤ clientX - imgRect.left → clientX - imgRect.left ≤ imgRect.width →
      0 ≤ clientY - imgRect.top → clientY - imgRect.top ≤ imgRect.height →
      handleMouseMove canvasWidth canvasHeight imgRect targetColor brushSize clientX clientY =
        some { x := (clientX - imgRect.left) * (canvasWidth / imgRect.width),
               y := (clientY - imgRect.top) * (canvasHeight / imgRect.height),
               radius := brushSize * (canvasWidth / imgRect.width) / 2,
               color := targetColor }) ∧
      ∀ targetColor : RGBColor,
        handleMouseMove 200 200 ⟨0, 0, 100, 100⟩ targetColor 20 50 50 =
          some { x := 100, y := 100, radius := 20, color := targetColor } := by
  constructor
  · intro cw ch rect tc brush cx cy h1 h2 h3 h4
    unfold handleMouseMove
    rw [if_pos ⟨h1, h2, h3, h4⟩]
  · intro tc
    unfold handleMouseMove
    norm_num

/-- Witness for C9: the concrete in-bounds click of the mask-paint
scenario, with all bounds hypotheses discharged numerically. -/
theorem handleMouseMove_in_bounds_witness :
    handleMouseMove 200 200 ⟨0, 0, 100, 100⟩ ⟨0, 0, 0⟩ 20 50 50 =
      some { x := 100, y := 100, radius := 20, color := ⟨0, 0, 0⟩ } := by
  have h := handleMouseMove_in_bounds.1 200 200 ⟨0, 0, 100, 100⟩ ⟨0, 0, 0⟩ 20 50 50
    (by norm_num) (by norm_num) (by norm_num) (by norm_num)
  norm_num at h
  exact h

end PureVision
